import Mathlib

/-!
Verification of the Mumble voice-chat client core
(`code/components/voip-mumble/src/MumbleClient.cpp`).

The development shallowly embeds the client state and the operations the
specification talks about:

* `MumbleState` collects the fields of `MumbleClient` that the claims touch
  (connection flags, desired/actual channel names, listen sets, pending voice
  targets, ping bookkeeping, crypto counters, transport mode).
* Outbound control messages are values of `OutMsg`; `sendMsg` models
  `MumbleClient::Send`, which silently drops the message unless
  `isConnected` holds and the TLS session is active.
* `sendUDP` / `handleUDP` model the UDP datagram path, with the crypto
  primitive itself treated as a black box (its success/failure is a
  parameter), exactly as the specification scopes it.
* `idleTick` models one tick of the idle-timer reconciler
  (`MumbleClient::Initialize`), split into the five steps the source
  performs in order: channel reconciliation, listen-channel reconciliation,
  voice-target flush, self-channel tracking, and ping cadence.
* `handlePing` models `MumbleClient::HandlePing`, `handleVoicePing` the UDP
  ping branch of `MumbleClient::HandleVoice`.

`std::set<std::string>` values are modelled as sorted duplicate-free lists
of strings maintained by `insertSorted`; `std::set_difference` on such sets
is `List.filter` by non-membership, which yields the same set in the same
(first-list) order. Machine integers are modelled as `Nat` (sizes, ids,
milliseconds) and `Int` (ping deltas); the float ping statistics are
modelled exactly over `ℚ`.
-/

namespace Mumble

/-- Maximum UDP datagram size accepted by the client (`kMaxUdpPacket`). -/
def kMaxUdpPacket : Nat := 1024

/-- Ping cadence and crypt-resync gate, in milliseconds (`kPingInterval`). -/
def kPingInterval : Nat := 1000

/-- Modelled from the spec: the ping history arrays `m_udpPings`/`m_tcpPings`
are declared in `MumbleClientImpl.h`, which is not among the sources; the
spec fixes the ring size ("two independent ring buffers (size fixed, e.g.
16)"). Only the capacity is taken from the spec; the shifting and averaging
code below is translated from `MumbleClient.cpp`. -/
def pingBufferSize : Nat := 16

/-- Modelled from the spec: the UDP ping datagram built with
`PacketDataStream` (header byte `0x20` then the timestamp); the spec gives
its size as 9 bytes ("a 9-byte UDP ping datagram [header=0x20][timestamp]").
`PacketDataStream.h` is not among the sources. -/
def udpPingPacketSize : Nat := 9

/-- A user as tracked by the state store: session id, display name, and the
id of the channel the user is in. -/
structure MumbleUser where
  sessionId : Nat
  name : String
  channelId : Nat
deriving DecidableEq

/-- A voice-target configuration (`VoiceTargetConfig`): user names and
channel names, both `std::set<std::string>`. -/
structure VoiceTargetConfig where
  users : List String
  channels : List String
deriving DecidableEq

/-- One sub-target of a `VoiceTarget` protobuf message: the `session` ids
added to it and its optional `channel_id`. -/
structure VoiceSubTarget where
  sessions : List Nat
  channelId : Option Nat
deriving DecidableEq

/-- The crypto bookkeeping the client keeps next to the black-box cipher:
the initialized flag, the OCB counters, and the time of the last good UDP
decrypt. -/
structure CryptoState where
  initialized : Bool
  localGood : Nat
  localLate : Nat
  localLost : Nat
  localResync : Nat
  remoteGood : Nat
  remoteLate : Nat
  remoteLost : Nat
  remoteResync : Nat
  lastGoodUdp : Nat
deriving DecidableEq

/-- Outbound control messages, restricted to the fields the client sets. -/
inductive OutMsg where
  | userStateMove (session : Nat) (channelId : Nat)
  | channelStateCreate (parent : Nat) (name : String) (temporary : Bool)
  | userStateListen (session : Nat) (adds : List Nat) (removes : List Nat)
  | voiceTarget (id : Nat) (targets : List VoiceSubTarget)
  | ping (timestamp : Nat) (good late lost resync : Nat)
      (tcpAvg tcpVar : ℚ) (tcpCount : Nat) (udpAvg udpVar : ℚ) (udpCount : Nat)
  | cryptSetup
  | udpTunnel (size : Nat)
deriving DecidableEq

/-- The portion of `MumbleClient` state the claims are about. -/
structure MumbleState where
  isConnected : Bool
  isConnecting : Bool
  tlsActive : Bool
  addressFamily : Nat
  curManualChannel : String
  lastManualChannel : String
  channels : List (Nat × String)
  users : List MumbleUser
  session : Nat
  curChannelListens : List String
  lastChannelListens : List String
  pendingVoiceTargetUpdates : List (Nat × VoiceTargetConfig)
  voiceTarget : Nat
  inFlightTcpPings : Nat
  timeSinceJoin : Nat
  nextPing : Nat
  crypto : CryptoState
  hasUdp : Bool
  udpPingCount : Nat
  udpPings : List Int
  udpPingAverage : ℚ
  udpPingVariance : ℚ
  tcpPingCount : Nat
  tcpPings : List Int
  tcpPingAverage : ℚ
  tcpPingVariance : ℚ

/-- `MumbleClient::Send(const char*, size_t)`: the outbound control write is
dropped unless `m_connectionInfo.isConnected` holds and the TLS session is
active; otherwise the message is appended to the TLS stream. -/
def sendMsg (st : MumbleState) (out : List OutMsg) (m : OutMsg) : List OutMsg :=
  if st.isConnected = true ∧ st.tlsActive = true then out ++ [m] else out

/-- `MumbleClient::SendUDP`: drops the packet if the crypto state is not
initialized or the plaintext is larger than `kMaxUdpPacket`; otherwise
encrypts (adding the 4-byte tag) and sends one datagram of `size + 4`
bytes. The result is the list of datagram sizes put on the wire. -/
def sendUDP (st : MumbleState) (size : Nat) : List Nat :=
  if !st.crypto.initialized then []
  else if kMaxUdpPacket < size then []
  else [size + 4]

/-- `MumbleClient::SendVoice`: voice goes over UDP when `m_hasUdp`, and is
wrapped in a `UDPTunnel` control message otherwise. Returns the control
messages and the UDP datagram sizes produced. -/
def sendVoice (st : MumbleState) (size : Nat) : List OutMsg × List Nat :=
  if !st.hasUdp then (sendMsg st [] (OutMsg.udpTunnel size), [])
  else ([], sendUDP st size)

/-- `MumbleClient::HandleUDP`: drops the datagram if crypto is not
initialized, or if it exceeds `kMaxUdpPacket` bytes (checked before any
decryption). On decrypt failure (outcome of the black-box cipher passed as
`decryptOk`), a `CryptSetup` request is sent at most once per
`kPingInterval`, gated by `m_lastGoodUdp`. On success the decrypted voice
payload goes to `HandleVoice` (its UDP-ping branch is modelled separately
as `handleVoicePing`); per spec §4.2 the cipher records `lastGoodUdp` on a
successful decrypt (the `CryptState` implementation is not among the
sources). -/
def handleUDP (now : Nat) (size : Nat) (decryptOk : Bool) (st : MumbleState) :
    MumbleState × List OutMsg :=
  if !st.crypto.initialized then (st, [])
  else if kMaxUdpPacket < size then (st, [])
  else if !decryptOk then
    if kPingInterval < now - st.crypto.lastGoodUdp then
      ({ st with crypto := { st.crypto with lastGoodUdp := now } },
        sendMsg st [] OutMsg.cryptSetup)
    else (st, [])
  else
    ({ st with crypto := { st.crypto with lastGoodUdp := now } }, [])

/-- Insertion into a sorted duplicate-free list of strings, modelling
`std::set<std::string>::insert`. -/
def insertSorted (n : String) : List String → List String
  | [] => [n]
  | x :: xs =>
    if n < x then n :: x :: xs
    else if n = x then x :: xs
    else x :: insertSorted n xs

/-- The `findCh` lambda of the idle-timer listen reconciliation (also the
channel search pattern used throughout the source): the id of the first
channel in the state store whose name equals `name`, if any. -/
def findCh (st : MumbleState) (name : String) : Option Nat :=
  (st.channels.find? (fun c => decide (c.2 = name))).map (fun c => c.1)

/-- Step 1 of the idle-timer tick: channel reconciliation. If the desired
channel differs from `m_lastManualChannel` and the store has channels,
commit the desired name to `m_lastManualChannel`, then either join the
first channel with that exact name (`UserState{session, channel_id}`) or
ask the server to create it
(`ChannelState{parent=0, name, temporary=true}`). -/
def channelStep (st : MumbleState) : MumbleState × List OutMsg :=
  if st.curManualChannel ≠ st.lastManualChannel ∧ st.channels ≠ [] then
    let st1 := { st with lastManualChannel := st.curManualChannel }
    match st1.channels.find? (fun c => decide (c.2 = st1.curManualChannel)) with
    | some c => (st1, sendMsg st1 [] (OutMsg.userStateMove st1.session c.1))
    | none =>
      (st1, sendMsg st1 [] (OutMsg.channelStateCreate 0 st1.curManualChannel true))
  else (st, [])

/-- Step 2 of the idle-timer tick: listen-channel reconciliation.
`removeChannelListens`/`addChannelListens` are the two set differences; the
remove loop resolves each name and always erases it from
`m_lastChannelListens`; the add loop resolves each name and, only when
resolved, records the id and inserts the name into `m_lastChannelListens`.
If any id was collected a single `UserState` carrying the adds and removes
is sent. -/
def listenStep (st : MumbleState) : MumbleState × List OutMsg :=
  let removeChannelListens :=
    st.lastChannelListens.filter (fun n => decide (n ∉ st.curChannelListens))
  let addChannelListens :=
    st.curChannelListens.filter (fun n => decide (n ∉ st.lastChannelListens))
  let rem := removeChannelListens.foldl
    (fun acc n =>
      ((match findCh st n with
        | some id => acc.1 ++ [id]
        | none => acc.1),
       acc.2.filter (fun m => decide (m ≠ n))))
    ([], st.lastChannelListens)
  let add := addChannelListens.foldl
    (fun acc n =>
      match findCh st n with
      | some id => (acc.1 ++ [id], insertSorted n acc.2)
      | none => acc)
    ([], rem.2)
  let st1 := { st with lastChannelListens := add.2 }
  if ¬ add.1 = [] ∨ ¬ rem.1 = [] then
    (st1, sendMsg st1 [] (OutMsg.userStateListen st1.session add.1 rem.1))
  else (st1, [])

/-- The `VoiceTarget` message built for one pending entry: one sub-target
collecting the session ids of every user whose name is in `config.users`
(`ForAllUsers` + `add_session`), then one extra sub-target per channel in
the store whose name is in `config.channels`. -/
def buildVoiceTargetMsg (st : MumbleState) (idx : Nat) (config : VoiceTargetConfig) :
    OutMsg :=
  let firstTarget : VoiceSubTarget :=
    { sessions :=
        config.users.foldl
          (fun acc userName =>
            st.users.foldl
              (fun acc2 u => if u.name = userName then acc2 ++ [u.sessionId] else acc2)
              acc)
          []
      channelId := none }
  let channelTargets : List VoiceSubTarget :=
    config.channels.foldl
      (fun acc channelName =>
        st.channels.foldl
          (fun acc2 c =>
            if c.2 = channelName then
              acc2 ++ [{ sessions := [], channelId := some c.1 }]
            else acc2)
          acc)
      []
  OutMsg.voiceTarget idx (firstTarget :: channelTargets)

/-- Step 3 of the idle-timer tick: flush `m_pendingVoiceTargetUpdates`,
sending one `VoiceTarget` per entry, then clear the map. -/
def voiceTargetStep (st : MumbleState) : MumbleState × List OutMsg :=
  let out := st.pendingVoiceTargetUpdates.foldl
    (fun acc p => sendMsg st acc (buildVoiceTargetMsg st p.1 p.2)) []
  ({ st with pendingVoiceTargetUpdates := [] }, out)

/-- Step 4 of the idle-timer tick: self-channel tracking. If the store has
our session and its channel resolves to a non-empty name, record that name
in `m_lastManualChannel`. -/
def selfTrackStep (st : MumbleState) : MumbleState :=
  match st.users.find? (fun u => decide (u.sessionId = st.session)) with
  | none => st
  | some self =>
    match st.channels.find? (fun c => decide (c.1 = self.channelId)) with
    | none => st
    | some c =>
      if c.2 = "" then st else { st with lastManualChannel := c.2 }

/-- Step 5 of the idle-timer tick: ping cadence. Runs only when
`msec() > m_nextPing`. If at least four TCP pings are in flight and the
session is more than 20 s old, the connection flags are reset so the idle
path reconnects; then the in-flight counter is bumped, a control `Ping`
with the crypto counters and both ping windows is sent (through `Send`,
hence dropped if the connection was just reset), a UDP ping datagram is
sent, and `m_nextPing` is re-armed. -/
def pingStep (now : Nat) (st : MumbleState) : MumbleState × List OutMsg × List Nat :=
  if st.nextPing < now then
    let st1 :=
      if 4 ≤ st.inFlightTcpPings ∧ 20000 < now - st.timeSinceJoin then
        { st with isConnected := false, isConnecting := false }
      else st
    let st2 := { st1 with inFlightTcpPings := st1.inFlightTcpPings + 1 }
    let out := sendMsg st2 []
      (OutMsg.ping now st2.crypto.localGood st2.crypto.localLate st2.crypto.localLost
        st2.crypto.localResync st2.tcpPingAverage st2.tcpPingVariance st2.tcpPingCount
        st2.udpPingAverage st2.udpPingVariance st2.udpPingCount)
    let udp := sendUDP st2 udpPingPacketSize
    ({ st2 with nextPing := now + kPingInterval }, out, udp)
  else (st, [], [])

/-- One tick of the idle timer installed by `MumbleClient::Initialize`.
While the TLS session is active and `isConnected`, the five reconciliation
steps run in order; the control messages and UDP datagram sizes they emit
are returned in emission order. Otherwise the tick only re-arms the
connect timer (no state in this model changes). -/
def idleTick (now : Nat) (st : MumbleState) : MumbleState × List OutMsg × List Nat :=
  if st.tlsActive = true ∧ st.isConnected = true then
    let r1 := channelStep st
    let r2 := listenStep r1.1
    let r3 := voiceTargetStep r2.1
    let st4 := selfTrackStep r3.1
    let r5 := pingStep now st4
    (r5.1, r1.2 ++ r2.2 ++ r3.2 ++ r5.2.1, r5.2.2)
  else (st, [], [])

/-- The shared ring-buffer update of the ping statistics (the identical
code appears for the TCP window in `HandlePing` and the UDP window in
`HandleVoice`): store the new delta (shifting the window down when full),
then recompute the average and variance. The loops run for
`i < thisPing`, and both divide by `thisPing + 1`. Returns the updated
history, average and variance. -/
def recordSample (count : Nat) (history : List Int) (timeDelta : Int) :
    List Int × ℚ × ℚ :=
  let thisPing0 := count - 1
  let r :=
    if pingBufferSize ≤ thisPing0 then
      (history.drop 1 ++ [timeDelta], pingBufferSize - 1)
    else (history.set thisPing0 timeDelta, thisPing0)
  let hist := r.1
  let tp := r.2
  let avgCount : Int := (List.range tp).foldl (fun acc i => acc + hist.getD i 0) 0
  let average : ℚ := (avgCount : ℚ) / ((tp : ℚ) + 1)
  let varianceCount : ℚ := (List.range tp).foldl
    (fun acc i =>
      acc + (((hist.getD i 0 : Int) : ℚ) - average) * (((hist.getD i 0 : Int) : ℚ) - average))
    0
  (hist, average, varianceCount / ((tp : ℚ) + 1))

/-- The UDP ping branch of `MumbleClient::HandleVoice`
(`(header >> 5) == 1`): bump the sample count and update the UDP ping
window with the delta between now and the looped-back timestamp. -/
def handleVoicePing (now : Nat) (timestamp : Nat) (st : MumbleState) : MumbleState :=
  let count := st.udpPingCount + 1
  let r := recordSample count st.udpPings ((now : Int) - (timestamp : Int))
  { st with
    udpPingCount := count
    udpPings := r.1
    udpPingAverage := r.2.1
    udpPingVariance := r.2.2 }

/-- A server `Ping` message: the crypto counters it reports and its
optional timestamp. -/
structure PingPacket where
  good : Nat
  late : Nat
  lost : Nat
  resync : Nat
  timestamp : Option Nat
deriving DecidableEq

/-- Tail of `MumbleClient::HandlePing`: bump the TCP ping count and, when
the ping carries a timestamp, update the TCP ping window. -/
def tcpStatsStep (now : Nat) (p : PingPacket) (st : MumbleState) : MumbleState :=
  let st1 := { st with tcpPingCount := st.tcpPingCount + 1 }
  match p.timestamp with
  | none => st1
  | some ts =>
    let r := recordSample st1.tcpPingCount st1.tcpPings ((now : Int) - (ts : Int))
    { st1 with
      tcpPings := r.1
      tcpPingAverage := r.2.1
      tcpPingVariance := r.2.2 }

/-- `MumbleClient::HandlePing`: reset the in-flight TCP ping counter; while
crypto is initialized, copy the server-reported counters into the remote
side and drive the UDP/TCP mode switch (`m_hasUdp` falls when either good
count is zero after 20 s of session life, rises when both exceed 3); then
update the TCP ping statistics. -/
def handlePing (now : Nat) (p : PingPacket) (st : MumbleState) : MumbleState :=
  let st1 := { st with inFlightTcpPings := 0 }
  let st2 :=
    if st1.crypto.initialized then
      let crypto2 := { st1.crypto with
        remoteGood := p.good
        remoteLate := p.late
        remoteLost := p.lost
        remoteResync := p.resync }
      let stc := { st1 with crypto := crypto2 }
      if stc.hasUdp = true ∧ (crypto2.remoteGood = 0 ∨ crypto2.localGood = 0) ∧
          20000 < now - stc.timeSinceJoin then
        { stc with hasUdp := false }
      else if stc.hasUdp = false ∧ 3 < crypto2.remoteGood ∧ 3 < crypto2.localGood then
        { stc with hasUdp := true }
      else stc
    else st1
  tcpStatsStep now p st2

/-- `MumbleClient::SetChannel`: ignored while not connected; a no-op for
the identical name; otherwise updates the desired channel name. -/
def setChannel (channelName : String) (st : MumbleState) : MumbleState :=
  if !st.isConnected then st
  else if channelName = st.curManualChannel then st
  else { st with curManualChannel := channelName }

/-- `MumbleClient::AddListenChannel`: inserts the name into
`m_curChannelListens`. -/
def addListenChannel (channelName : String) (st : MumbleState) : MumbleState :=
  { st with curChannelListens := insertSorted channelName st.curChannelListens }

/-- `MumbleClient::RemoveListenChannel`: erases the name from
`m_curChannelListens`. -/
def removeListenChannel (channelName : String) (st : MumbleState) : MumbleState :=
  { st with curChannelListens :=
      st.curChannelListens.filter (fun m => decide (m ≠ channelName)) }

/-- `MumbleClient::UpdateVoiceTarget`: records (or overwrites) the pending
rebuild for a target id, keeping the `std::map` key order. -/
def updateVoiceTarget (idx : Nat) (config : VoiceTargetConfig) :
    List (Nat × VoiceTargetConfig) → List (Nat × VoiceTargetConfig)
  | [] => [(idx, config)]
  | e :: rest =>
    if idx < e.1 then (idx, config) :: e :: rest
    else if idx = e.1 then (idx, config) :: rest
    else e :: updateVoiceTarget idx config rest

/-! ### Derived definitions, traces, and concrete states -/

/-- The user sessions a voice-target configuration resolves to: for each
configured user name (in order), the session ids of the store users
carrying that name (in store order). -/
def resolveUserSessions (st : MumbleState) (names : List String) : List Nat :=
  names.flatMap (fun nm =>
    st.users.filterMap (fun u => if u.name = nm then some u.sessionId else none))

/-- The channel ids a voice-target configuration resolves to: for each
configured channel name (in order), the ids of the store channels carrying
that name (in store order). -/
def resolveChannelIds (st : MumbleState) (names : List String) : List Nat :=
  names.flatMap (fun nm =>
    st.channels.filterMap (fun c => if c.2 = nm then some c.1 else none))

/-- Recognizes the two messages channel reconciliation can emit: a
`UserState` channel move or a `ChannelState` create request. -/
def isChannelReconcileMsg : OutMsg → Bool
  | OutMsg.userStateMove _ _ => true
  | OutMsg.channelStateCreate _ _ _ => true
  | _ => false

/-- The resolved ids of the listen-channel names the reconciler wants to
add on this tick: the set difference `current \ last`, resolved through the
state store, unresolved names skipped. -/
def listenAddIds (st : MumbleState) : List Nat :=
  (st.curChannelListens.filter (fun n => decide (n ∉ st.lastChannelListens))).filterMap
    (findCh st)

/-- The resolved ids of the listen-channel names the reconciler wants to
remove on this tick: the set difference `last \ current`, resolved through
the state store, unresolved names skipped. -/
def listenRemoveIds (st : MumbleState) : List Nat :=
  (st.lastChannelListens.filter (fun n => decide (n ∉ st.curChannelListens))).filterMap
    (findCh st)

/-- A sequence of UDP datagrams that all fail to decrypt, injected at the
given times (each datagram 20 bytes, within the size bound): the final
state and the times at which a `CryptSetup` request went out. -/
def runDecryptFailures (st : MumbleState) : List Nat → MumbleState × List Nat
  | [] => (st, [])
  | t :: rest =>
    let r := handleUDP t 20 false st
    let r2 := runDecryptFailures r.1 rest
    (r2.1, (if r.2.isEmpty then [] else [t]) ++ r2.2)

/-- Counts the server pings whose processing flips `m_hasUdp` from `true`
to `false` (the UDP→TCP fallback events) along a run of `HandlePing`
calls, each given as (arrival time, packet). -/
def hasUdpDropCount (st : MumbleState) : List (Nat × PingPacket) → Nat
  | [] => 0
  | e :: rest =>
    (if st.hasUdp = true ∧ (handlePing e.1 e.2 st).hasUdp = false then 1 else 0) +
      hasUdpDropCount (handlePing e.1 e.2 st) rest

/-- The schedule hypothesis for a run of reconciler ticks: each tick time
is past the `m_nextPing` deadline as re-armed by the previous tick. -/
def eligibleTimes (nextPing : Nat) : List Nat → Bool
  | [] => true
  | t :: rest => decide (nextPing < t) && eligibleTimes (t + kPingInterval) rest

/-- Counts the ticks of a run on which `isConnected` falls from `true` to
`false` — the forced reconnects. -/
def reconnectCount (st : MumbleState) : List Nat → Nat
  | [] => 0
  | t :: rest =>
    (if st.isConnected = true ∧ (idleTick t st).1.isConnected = false then 1 else 0) +
      reconnectCount (idleTick t st).1 rest

/-! ### Concrete states used by the claims -/

/-- A crypto state with keys installed and healthy counters. -/
def exampleCrypto : CryptoState :=
  { initialized := true, localGood := 5, localLate := 0, localLost := 0, localResync := 0
    remoteGood := 5, remoteLate := 0, remoteLost := 0, remoteResync := 0, lastGoodUdp := 0 }

/-- A freshly synced client: connected over an active TLS session, the
store knows channels `Root` (id 0, where our session 7 currently is) and
`Lobby` (id 1), and the desired channel is `Lobby`. -/
def exampleState : MumbleState :=
  { isConnected := true, isConnecting := false, tlsActive := true, addressFamily := 2
    curManualChannel := "Lobby", lastManualChannel := "Root"
    channels := [(0, "Root"), (1, "Lobby")]
    users := [{ sessionId := 7, name := "me", channelId := 0 }]
    session := 7, curChannelListens := [], lastChannelListens := []
    pendingVoiceTargetUpdates := [], voiceTarget := 0
    inFlightTcpPings := 0, timeSinceJoin := 0, nextPing := 1000
    crypto := exampleCrypto, hasUdp := true
    udpPingCount := 0, udpPings := List.replicate 16 0, udpPingAverage := 0
    udpPingVariance := 0
    tcpPingCount := 0, tcpPings := List.replicate 16 0, tcpPingAverage := 0
    tcpPingVariance := 0 }

/-- Like `exampleState`, but our user already sits in the desired channel
`Lobby`, so self-channel tracking does not fight the reconciliation. -/
def settledState : MumbleState :=
  { exampleState with users := [{ sessionId := 7, name := "me", channelId := 1 }] }

/-- A voice-target configuration naming one channel, `X`. -/
def c8config : VoiceTargetConfig := { users := [], channels := ["X"] }

/-- A connected client whose store has two distinct channels both named
`X`, with one pending voice-target update for target id 3 referencing the
name `X`. -/
def c8state : MumbleState :=
  { exampleState with
    curManualChannel := "Root"
    channels := [(1, "X"), (2, "X")]
    users := []
    pendingVoiceTargetUpdates := [(3, c8config)] }

/-- A client that wants to listen to channel `A` (known to the store as
id 2) and has sent no listens yet. -/
def listenState : MumbleState :=
  { exampleState with
    curManualChannel := "Root"
    lastManualChannel := "Root"
    channels := [(0, "Root"), (1, "Lobby"), (2, "A")]
    curChannelListens := ["A"] }

/-- A client whose TCP connection flag has been cleared. -/
def disconnState : MumbleState := { exampleState with isConnected := false }

/-- A client whose crypto state has no keys installed yet. -/
def uninitState : MumbleState :=
  { exampleState with crypto := { exampleCrypto with initialized := false } }

/-- A server ping reporting `good = 0` with no timestamp. -/
def zeroGoodPing : PingPacket :=
  { good := 0, late := 0, lost := 0, resync := 0, timestamp := none }


/-! ### Shape lemmas for the reconciler steps -/

lemma channelStep_cases (st : MumbleState) :
    (channelStep st).1 = st ∨
      (channelStep st).1 = { st with lastManualChannel := st.curManualChannel } := by
  unfold channelStep
  dsimp only
  split
  · split <;> exact Or.inr rfl
  · exact Or.inl rfl

lemma listenStep_state (st : MumbleState) :
    ∃ l, (listenStep st).1 = { st with lastChannelListens := l } := by
  unfold listenStep
  dsimp only
  split <;> exact ⟨_, rfl⟩

lemma voiceTargetStep_state (st : MumbleState) :
    (voiceTargetStep st).1 = { st with pendingVoiceTargetUpdates := [] } := rfl

lemma selfTrackStep_cases (st : MumbleState) :
    selfTrackStep st = st ∨
      ∃ n, selfTrackStep st = { st with lastManualChannel := n } := by
  unfold selfTrackStep
  split
  · exact Or.inl rfl
  · split
    · exact Or.inl rfl
    · split
      · exact Or.inl rfl
      · exact Or.inr ⟨_, rfl⟩

lemma pingStep_state_cases (now : Nat) (st : MumbleState) :
    (pingStep now st).1 = st ∨
      (pingStep now st).1 = { st with
        inFlightTcpPings := st.inFlightTcpPings + 1
        nextPing := now + kPingInterval } ∨
      (pingStep now st).1 = { st with
        isConnected := false
        isConnecting := false
        inFlightTcpPings := st.inFlightTcpPings + 1
        nextPing := now + kPingInterval } := by
  unfold pingStep
  split
  · split
    · exact Or.inr (Or.inr rfl)
    · exact Or.inr (Or.inl rfl)
  · exact Or.inl rfl

lemma pingStep_not_fired {now : Nat} {st : MumbleState} (h : ¬ st.nextPing < now) :
    pingStep now st = (st, [], []) := by
  unfold pingStep
  rw [if_neg h]

lemma pingStep_state_fired {now : Nat} {st : MumbleState} (h : st.nextPing < now) :
    (pingStep now st).1 = { st with
      isConnected :=
        if 4 ≤ st.inFlightTcpPings ∧ 20000 < now - st.timeSinceJoin then false
        else st.isConnected
      isConnecting :=
        if 4 ≤ st.inFlightTcpPings ∧ 20000 < now - st.timeSinceJoin then false
        else st.isConnecting
      inFlightTcpPings := st.inFlightTcpPings + 1
      nextPing := now + kPingInterval } := by
  unfold pingStep
  rw [if_pos h]
  by_cases h2 : 4 ≤ st.inFlightTcpPings ∧ 20000 < now - st.timeSinceJoin
  · rw [if_pos h2]
    simp only [if_pos h2]
  · rw [if_neg h2]
    simp only [if_neg h2]

lemma idleTick_inactive {now : Nat} {st : MumbleState}
    (h : ¬ (st.tlsActive = true ∧ st.isConnected = true)) :
    idleTick now st = (st, [], []) := by
  unfold idleTick
  rw [if_neg h]

/-! ### Field preservation lemmas for the reconciler steps -/

section StepFields

variable (st : MumbleState) (now : Nat)

@[simp] lemma channelStep_isConnected : (channelStep st).1.isConnected = st.isConnected := by
  rcases channelStep_cases st with h | h <;> rw [h]

@[simp] lemma channelStep_isConnecting : (channelStep st).1.isConnecting = st.isConnecting := by
  rcases channelStep_cases st with h | h <;> rw [h]

@[simp] lemma channelStep_tlsActive : (channelStep st).1.tlsActive = st.tlsActive := by
  rcases channelStep_cases st with h | h <;> rw [h]

@[simp] lemma channelStep_inFlight :
    (channelStep st).1.inFlightTcpPings = st.inFlightTcpPings := by
  rcases channelStep_cases st with h | h <;> rw [h]

@[simp] lemma channelStep_nextPing : (channelStep st).1.nextPing = st.nextPing := by
  rcases channelStep_cases st with h | h <;> rw [h]

@[simp] lemma channelStep_timeSinceJoin :
    (channelStep st).1.timeSinceJoin = st.timeSinceJoin := by
  rcases channelStep_cases st with h | h <;> rw [h]

@[simp] lemma channelStep_curManualChannel :
    (channelStep st).1.curManualChannel = st.curManualChannel := by
  rcases channelStep_cases st with h | h <;> rw [h]

@[simp] lemma channelStep_channels : (channelStep st).1.channels = st.channels := by
  rcases channelStep_cases st with h | h <;> rw [h]

@[simp] lemma channelStep_users : (channelStep st).1.users = st.users := by
  rcases channelStep_cases st with h | h <;> rw [h]

@[simp] lemma channelStep_session : (channelStep st).1.session = st.session := by
  rcases channelStep_cases st with h | h <;> rw [h]

@[simp] lemma channelStep_crypto : (channelStep st).1.crypto = st.crypto := by
  rcases channelStep_cases st with h | h <;> rw [h]

@[simp] lemma channelStep_hasUdp : (channelStep st).1.hasUdp = st.hasUdp := by
  rcases channelStep_cases st with h | h <;> rw [h]

@[simp] lemma listenStep_isConnected : (listenStep st).1.isConnected = st.isConnected := by
  obtain ⟨l, h⟩ := listenStep_state st; rw [h]

@[simp] lemma listenStep_isConnecting : (listenStep st).1.isConnecting = st.isConnecting := by
  obtain ⟨l, h⟩ := listenStep_state st; rw [h]

@[simp] lemma listenStep_tlsActive : (listenStep st).1.tlsActive = st.tlsActive := by
  obtain ⟨l, h⟩ := listenStep_state st; rw [h]

@[simp] lemma listenStep_inFlight :
    (listenStep st).1.inFlightTcpPings = st.inFlightTcpPings := by
  obtain ⟨l, h⟩ := listenStep_state st; rw [h]

@[simp] lemma listenStep_nextPing : (listenStep st).1.nextPing = st.nextPing := by
  obtain ⟨l, h⟩ := listenStep_state st; rw [h]

@[simp] lemma listenStep_timeSinceJoin :
    (listenStep st).1.timeSinceJoin = st.timeSinceJoin := by
  obtain ⟨l, h⟩ := listenStep_state st; rw [h]

@[simp] lemma listenStep_curManualChannel :
    (listenStep st).1.curManualChannel = st.curManualChannel := by
  obtain ⟨l, h⟩ := listenStep_state st; rw [h]

@[simp] lemma listenStep_lastManualChannel :
    (listenStep st).1.lastManualChannel = st.lastManualChannel := by
  obtain ⟨l, h⟩ := listenStep_state st; rw [h]

@[simp] lemma listenStep_channels : (listenStep st).1.channels = st.channels := by
  obtain ⟨l, h⟩ := listenStep_state st; rw [h]

@[simp] lemma listenStep_users : (listenStep st).1.users = st.users := by
  obtain ⟨l, h⟩ := listenStep_state st; rw [h]

@[simp] lemma listenStep_session : (listenStep st).1.session = st.session := by
  obtain ⟨l, h⟩ := listenStep_state st; rw [h]

@[simp] lemma listenStep_crypto : (listenStep st).1.crypto = st.crypto := by
  obtain ⟨l, h⟩ := listenStep_state st; rw [h]

@[simp] lemma listenStep_hasUdp : (listenStep st).1.hasUdp = st.hasUdp := by
  obtain ⟨l, h⟩ := listenStep_state st; rw [h]

@[simp] lemma vtStep_isConnected : (voiceTargetStep st).1.isConnected = st.isConnected := rfl

@[simp] lemma vtStep_isConnecting :
    (voiceTargetStep st).1.isConnecting = st.isConnecting := rfl

@[simp] lemma vtStep_tlsActive : (voiceTargetStep st).1.tlsActive = st.tlsActive := rfl

@[simp] lemma vtStep_inFlight :
    (voiceTargetStep st).1.inFlightTcpPings = st.inFlightTcpPings := rfl

@[simp] lemma vtStep_nextPing : (voiceTargetStep st).1.nextPing = st.nextPing := rfl

@[simp] lemma vtStep_timeSinceJoin :
    (voiceTargetStep st).1.timeSinceJoin = st.timeSinceJoin := rfl

@[simp] lemma vtStep_curManualChannel :
    (voiceTargetStep st).1.curManualChannel = st.curManualChannel := rfl

@[simp] lemma vtStep_lastManualChannel :
    (voiceTargetStep st).1.lastManualChannel = st.lastManualChannel := rfl

@[simp] lemma vtStep_channels : (voiceTargetStep st).1.channels = st.channels := rfl

@[simp] lemma vtStep_users : (voiceTargetStep st).1.users = st.users := rfl

@[simp] lemma vtStep_session : (voiceTargetStep st).1.session = st.session := rfl

@[simp] lemma vtStep_crypto : (voiceTargetStep st).1.crypto = st.crypto := rfl

@[simp] lemma vtStep_hasUdp : (voiceTargetStep st).1.hasUdp = st.hasUdp := rfl

@[simp] lemma selfTrackStep_isConnected :
    (selfTrackStep st).isConnected = st.isConnected := by
  rcases selfTrackStep_cases st with h | ⟨n, h⟩ <;> rw [h]

@[simp] lemma selfTrackStep_isConnecting :
    (selfTrackStep st).isConnecting = st.isConnecting := by
  rcases selfTrackStep_cases st with h | ⟨n, h⟩ <;> rw [h]

@[simp] lemma selfTrackStep_tlsActive : (selfTrackStep st).tlsActive = st.tlsActive := by
  rcases selfTrackStep_cases st with h | ⟨n, h⟩ <;> rw [h]

@[simp] lemma selfTrackStep_inFlight :
    (selfTrackStep st).inFlightTcpPings = st.inFlightTcpPings := by
  rcases selfTrackStep_cases st with h | ⟨n, h⟩ <;> rw [h]

@[simp] lemma selfTrackStep_nextPing : (selfTrackStep st).nextPing = st.nextPing := by
  rcases selfTrackStep_cases st with h | ⟨n, h⟩ <;> rw [h]

@[simp] lemma selfTrackStep_timeSinceJoin :
    (selfTrackStep st).timeSinceJoin = st.timeSinceJoin := by
  rcases selfTrackStep_cases st with h | ⟨n, h⟩ <;> rw [h]

@[simp] lemma selfTrackStep_curManualChannel :
    (selfTrackStep st).curManualChannel = st.curManualChannel := by
  rcases selfTrackStep_cases st with h | ⟨n, h⟩ <;> rw [h]

@[simp] lemma selfTrackStep_channels : (selfTrackStep st).channels = st.channels := by
  rcases selfTrackStep_cases st with h | ⟨n, h⟩ <;> rw [h]

@[simp] lemma selfTrackStep_users : (selfTrackStep st).users = st.users := by
  rcases selfTrackStep_cases st with h | ⟨n, h⟩ <;> rw [h]

@[simp] lemma selfTrackStep_session : (selfTrackStep st).session = st.session := by
  rcases selfTrackStep_cases st with h | ⟨n, h⟩ <;> rw [h]

@[simp] lemma selfTrackStep_crypto : (selfTrackStep st).crypto = st.crypto := by
  rcases selfTrackStep_cases st with h | ⟨n, h⟩ <;> rw [h]

@[simp] lemma selfTrackStep_hasUdp : (selfTrackStep st).hasUdp = st.hasUdp := by
  rcases selfTrackStep_cases st with h | ⟨n, h⟩ <;> rw [h]

@[simp] lemma pingStep_tlsActive : (pingStep now st).1.tlsActive = st.tlsActive := by
  rcases pingStep_state_cases now st with h | h | h <;> rw [h]

@[simp] lemma pingStep_timeSinceJoin :
    (pingStep now st).1.timeSinceJoin = st.timeSinceJoin := by
  rcases pingStep_state_cases now st with h | h | h <;> rw [h]

@[simp] lemma pingStep_curManualChannel :
    (pingStep now st).1.curManualChannel = st.curManualChannel := by
  rcases pingStep_state_cases now st with h | h | h <;> rw [h]

@[simp] lemma pingStep_lastManualChannel :
    (pingStep now st).1.lastManualChannel = st.lastManualChannel := by
  rcases pingStep_state_cases now st with h | h | h <;> rw [h]

@[simp] lemma pingStep_channels : (pingStep now st).1.channels = st.channels := by
  rcases pingStep_state_cases now st with h | h | h <;> rw [h]

@[simp] lemma pingStep_users : (pingStep now st).1.users = st.users := by
  rcases pingStep_state_cases now st with h | h | h <;> rw [h]

@[simp] lemma pingStep_session : (pingStep now st).1.session = st.session := by
  rcases pingStep_state_cases now st with h | h | h <;> rw [h]

@[simp] lemma pingStep_crypto : (pingStep now st).1.crypto = st.crypto := by
  rcases pingStep_state_cases now st with h | h | h <;> rw [h]

@[simp] lemma pingStep_hasUdp : (pingStep now st).1.hasUdp = st.hasUdp := by
  rcases pingStep_state_cases now st with h | h | h <;> rw [h]

end StepFields

/-! ### Fold characterizations -/

lemma foldl_sendMsg_map {α : Type} (st : MumbleState) (f : α → OutMsg) (l : List α)
    (acc : List OutMsg) :
    List.foldl (fun a x => sendMsg st a (f x)) acc l =
      acc ++ if st.isConnected = true ∧ st.tlsActive = true then l.map f else [] := by
  induction l generalizing acc with
  | nil => simp
  | cons x l ih =>
    rw [List.foldl_cons, ih]
    unfold sendMsg
    by_cases h : st.isConnected = true ∧ st.tlsActive = true
    · rw [if_pos h, if_pos h, if_pos h]
      simp
    · rw [if_neg h, if_neg h, if_neg h]

lemma mem_insertSorted (n : String) (l : List String) (m : String) :
    m ∈ insertSorted n l ↔ m = n ∨ m ∈ l := by
  induction l with
  | nil => simp [insertSorted]
  | cons x xs ih =>
    unfold insertSorted
    split
    · simp [List.mem_cons]
    · split
      · next h =>
        subst h
        simp [List.mem_cons]
      · simp [List.mem_cons, ih]
        tauto

lemma foldl_userSessions (st : MumbleState) (names : List String) (acc : List Nat) :
    List.foldl
      (fun a nm =>
        List.foldl (fun a2 u => if u.name = nm then a2 ++ [u.sessionId] else a2) a st.users)
      acc names = acc ++ resolveUserSessions st names := by
  have inner : ∀ (users : List MumbleUser) (nm : String) (a : List Nat),
      List.foldl (fun a2 u => if u.name = nm then a2 ++ [u.sessionId] else a2) a users =
        a ++ users.filterMap (fun u => if u.name = nm then some u.sessionId else none) := by
    intro users nm
    induction users with
    | nil => simp
    | cons u us ih =>
      intro a
      rw [List.foldl_cons]
      by_cases h : u.name = nm
      · rw [if_pos h, ih, List.filterMap_cons, if_pos h]
        simp
      · rw [if_neg h, ih, List.filterMap_cons, if_neg h]
  induction names generalizing acc with
  | nil => simp [resolveUserSessions]
  | cons nm names ih =>
    rw [List.foldl_cons, inner, ih]
    simp [resolveUserSessions]

lemma foldl_channelTargets (st : MumbleState) (names : List String)
    (acc : List VoiceSubTarget) :
    List.foldl
      (fun a nm =>
        List.foldl
          (fun a2 c =>
            if c.2 = nm then a2 ++ [{ sessions := [], channelId := some c.1 }] else a2)
          a st.channels)
      acc names =
      acc ++ (resolveChannelIds st names).map
        (fun cid => { sessions := [], channelId := some cid }) := by
  have inner : ∀ (channels : List (Nat × String)) (nm : String) (a : List VoiceSubTarget),
      List.foldl
        (fun a2 c =>
          if c.2 = nm then a2 ++ [{ sessions := [], channelId := some c.1 }] else a2)
        a channels =
        a ++ (channels.filterMap (fun c => if c.2 = nm then some c.1 else none)).map
          (fun cid => { sessions := [], channelId := some cid }) := by
    intro channels nm
    induction channels with
    | nil => simp
    | cons c cs ih =>
      intro a
      rw [List.foldl_cons]
      by_cases h : c.2 = nm
      · rw [if_pos h, ih, List.filterMap_cons, if_pos h]
        simp
      · rw [if_neg h, ih, List.filterMap_cons, if_neg h]
  induction names generalizing acc with
  | nil => simp [resolveChannelIds]
  | cons nm names ih =>
    rw [List.foldl_cons, inner, ih]
    simp [resolveChannelIds]

lemma buildVoiceTargetMsg_eq (st : MumbleState) (idx : Nat) (config : VoiceTargetConfig) :
    buildVoiceTargetMsg st idx config =
      OutMsg.voiceTarget idx
        ({ sessions := resolveUserSessions st config.users, channelId := none } ::
          (resolveChannelIds st config.channels).map
            (fun cid => { sessions := [], channelId := some cid })) := by
  unfold buildVoiceTargetMsg
  rw [foldl_userSessions, foldl_channelTargets]
  simp

lemma listenRemoveFold (st : MumbleState) (names : List String) (ids0 : List Nat)
    (l0 : List String) :
    List.foldl
      (fun acc n =>
        ((match findCh st n with
          | some id => acc.1 ++ [id]
          | none => acc.1),
          List.filter (fun m => decide (m ≠ n)) acc.2))
      (ids0, l0) names =
      (ids0 ++ names.filterMap (findCh st),
        List.filter (fun m => decide (m ∉ names)) l0) := by
  induction names generalizing ids0 l0 with
  | nil => simp
  | cons n rest ih =>
    rw [List.foldl_cons, ih]
    refine Prod.ext ?_ ?_
    · cases hf : findCh st n with
      | none => simp [List.filterMap_cons, hf]
      | some id => simp [List.filterMap_cons, hf]
    · rw [List.filter_filter]
      refine List.filter_congr ?_
      intro m _
      by_cases hm : m = n <;> by_cases hr : m ∈ rest <;>
        simp [hm, hr, List.mem_cons]

lemma listenAddFold (st : MumbleState) (names : List String) (ids0 : List Nat)
    (l0 : List String) :
    (List.foldl
        (fun acc n =>
          match findCh st n with
          | some id => (acc.1 ++ [id], insertSorted n acc.2)
          | none => acc)
        (ids0, l0) names).1 = ids0 ++ names.filterMap (findCh st) ∧
      ∀ m, m ∈ (List.foldl
        (fun acc n =>
          match findCh st n with
          | some id => (acc.1 ++ [id], insertSorted n acc.2)
          | none => acc)
        (ids0, l0) names).2 ↔
          m ∈ l0 ∨ (m ∈ names ∧ (findCh st m).isSome) := by
  induction names generalizing ids0 l0 with
  | nil => simp
  | cons n rest ih =>
    rw [List.foldl_cons]
    cases hf : findCh st n with
    | some id =>
      dsimp only
      obtain ⟨ih1, ih2⟩ := ih (ids0 ++ [id]) (insertSorted n l0)
      constructor
      · rw [ih1]
        simp [List.filterMap_cons, hf]
      · intro m
        rw [ih2, mem_insertSorted]
        by_cases hm : m = n
        · subst hm
          simp [hf]
        · simp [hm, List.mem_cons]
    | none =>
      dsimp only
      obtain ⟨ih1, ih2⟩ := ih ids0 l0
      constructor
      · rw [ih1]
        simp [List.filterMap_cons, hf]
      · intro m
        rw [ih2]
        by_cases hm : m = n
        · subst hm
          simp [hf]
        · simp [hm, List.mem_cons]

/-! ### Output characterizations of the reconciler steps -/

lemma channelStep_skip {st : MumbleState}
    (h : ¬ (st.curManualChannel ≠ st.lastManualChannel ∧ st.channels ≠ [])) :
    channelStep st = (st, []) := by
  unfold channelStep
  rw [if_neg h]

lemma channelStep_fired_state {st : MumbleState}
    (h : st.curManualChannel ≠ st.lastManualChannel ∧ st.channels ≠ []) :
    (channelStep st).1 = { st with lastManualChannel := st.curManualChannel } := by
  unfold channelStep
  dsimp only
  rw [if_pos h]
  split <;> rfl

lemma channelStep_fired_out {st : MumbleState}
    (h : st.curManualChannel ≠ st.lastManualChannel ∧ st.channels ≠ [])
    (hc : st.isConnected = true) (ht : st.tlsActive = true) :
    (channelStep st).2 =
      [match st.channels.find? (fun c => decide (c.2 = st.curManualChannel)) with
       | some c => OutMsg.userStateMove st.session c.1
       | none => OutMsg.channelStateCreate 0 st.curManualChannel true] := by
  unfold channelStep
  dsimp only
  rw [if_pos h]
  cases hfind : st.channels.find? (fun c => decide (c.2 = st.curManualChannel)) <;>
    simp [sendMsg, hc, ht]

lemma listenStep_out_filter (st : MumbleState) :
    ((listenStep st).2).filter isChannelReconcileMsg = [] := by
  unfold listenStep
  dsimp only
  split
  · unfold sendMsg
    split <;> rfl
  · rfl

lemma vtStep_out_filter (st : MumbleState) :
    ((voiceTargetStep st).2).filter isChannelReconcileMsg = [] := by
  unfold voiceTargetStep
  dsimp only
  rw [foldl_sendMsg_map]
  split
  · rw [List.nil_append, List.filter_eq_nil_iff]
    intro m hm
    obtain ⟨p, hp, hpm⟩ := List.mem_map.mp hm
    rw [← hpm, buildVoiceTargetMsg_eq]
    simp [isChannelReconcileMsg]
  · rfl

lemma pingStep_out_filter (now : Nat) (st : MumbleState) :
    ((pingStep now st).2.1).filter isChannelReconcileMsg = [] := by
  unfold pingStep sendMsg
  dsimp only
  split
  · split <;> split <;> rfl
  · rfl

lemma idleTick_filter_channel {now : Nat} {st : MumbleState}
    (h : st.tlsActive = true ∧ st.isConnected = true) :
    ((idleTick now st).2.1).filter isChannelReconcileMsg =
      ((channelStep st).2).filter isChannelReconcileMsg := by
  unfold idleTick
  rw [if_pos h]
  dsimp only
  rw [List.filter_append, List.filter_append, List.filter_append,
    listenStep_out_filter, vtStep_out_filter, pingStep_out_filter]
  simp

lemma selfTrackStep_last_cases (st : MumbleState)
    (hself : ∀ u ∈ st.users, u.sessionId = st.session →
      ∀ c ∈ st.channels, c.1 = u.channelId → c.2 = "" ∨ c.2 = st.curManualChannel) :
    (selfTrackStep st).lastManualChannel = st.lastManualChannel ∨
      (selfTrackStep st).lastManualChannel = st.curManualChannel := by
  unfold selfTrackStep
  split
  · exact Or.inl rfl
  · next self hfind =>
    split
    · exact Or.inl rfl
    · next c hfindc =>
      split
      · exact Or.inl rfl
      · next hne =>
        refine Or.inr ?_
        have hu : self ∈ st.users := List.mem_of_find?_eq_some hfind
        have hps := List.find?_some hfind
        have hus : self.sessionId = st.session := of_decide_eq_true hps
        have hcmem : c ∈ st.channels := List.mem_of_find?_eq_some hfindc
        have hpc := List.find?_some hfindc
        have hcid : c.1 = self.channelId := of_decide_eq_true hpc
        rcases hself self hu hus c hcmem hcid with h0 | h0
        · exact absurd h0 hne
        · exact h0

lemma listenStep_spec (st : MumbleState) :
    ((listenStep st).2 =
      if ¬ listenAddIds st = [] ∨ ¬ listenRemoveIds st = [] then
        (if st.isConnected = true ∧ st.tlsActive = true then
          [OutMsg.userStateListen st.session (listenAddIds st) (listenRemoveIds st)]
        else [])
      else []) ∧
    (∀ m, m ∈ (listenStep st).1.lastChannelListens ↔
      (m ∈ st.lastChannelListens ∧
        m ∉ st.lastChannelListens.filter (fun n => decide (n ∉ st.curChannelListens))) ∨
      (m ∈ st.curChannelListens.filter (fun n => decide (n ∉ st.lastChannelListens)) ∧
        (findCh st m).isSome)) := by
  unfold listenStep
  dsimp only
  rw [listenRemoveFold]
  dsimp only
  obtain ⟨hadd1, hadd2⟩ := listenAddFold st
    (st.curChannelListens.filter (fun n => decide (n ∉ st.lastChannelListens)))
    []
    (List.filter
      (fun m => decide (m ∉ st.lastChannelListens.filter
        (fun n => decide (n ∉ st.curChannelListens)))) st.lastChannelListens)
  rw [hadd1]
  constructor
  · rw [List.nil_append]
    split
    · next hcond =>
      rw [if_pos (by
        unfold listenAddIds listenRemoveIds
        simpa using hcond)]
      unfold sendMsg listenAddIds listenRemoveIds
      dsimp only
      split
      · simp
      · rfl
    · next hcond =>
      rw [if_neg (by
        unfold listenAddIds listenRemoveIds
        simpa using hcond)]
  · intro m
    have hmem := hadd2 m
    constructor
    · intro hm
      have hm2 : m ∈ (List.foldl
          (fun acc n =>
            match findCh st n with
            | some id => (acc.1 ++ [id], insertSorted n acc.2)
            | none => acc)
          ([], List.filter
            (fun m => decide (m ∉ st.lastChannelListens.filter
              (fun n => decide (n ∉ st.curChannelListens)))) st.lastChannelListens)
          (st.curChannelListens.filter (fun n => decide (n ∉ st.lastChannelListens)))).2 := by
        split at hm <;> simpa using hm
      rcases hmem.mp hm2 with h | h
      · left
        have := List.mem_filter.mp h
        refine ⟨this.1, ?_⟩
        have := of_decide_eq_true this.2
        exact this
      · exact Or.inr h
    · intro hm
      have hm2 : m ∈ (List.foldl
          (fun acc n =>
            match findCh st n with
            | some id => (acc.1 ++ [id], insertSorted n acc.2)
            | none => acc)
          ([], List.filter
            (fun m => decide (m ∉ st.lastChannelListens.filter
              (fun n => decide (n ∉ st.curChannelListens)))) st.lastChannelListens)
          (st.curChannelListens.filter (fun n => decide (n ∉ st.lastChannelListens)))).2 := by
        refine hmem.mpr ?_
        rcases hm with ⟨h1, h2⟩ | h
        · exact Or.inl (List.mem_filter.mpr ⟨h1, decide_eq_true h2⟩)
        · exact Or.inr h
      split <;> simpa using hm2

lemma vtStep_out (st : MumbleState) (hc : st.isConnected = true)
    (ht : st.tlsActive = true) :
    (voiceTargetStep st).2 =
      st.pendingVoiceTargetUpdates.map (fun p =>
        OutMsg.voiceTarget p.1
          ({ sessions := resolveUserSessions st p.2.users, channelId := none } ::
            (resolveChannelIds st p.2.channels).map
              (fun cid => { sessions := [], channelId := some cid }))) := by
  unfold voiceTargetStep
  dsimp only
  rw [foldl_sendMsg_map, if_pos ⟨hc, ht⟩, List.nil_append]
  simp only [buildVoiceTargetMsg_eq]

lemma filter_ne_insertSorted (n : String) (l : List String) (h : n ∉ l) :
    (insertSorted n l).filter (fun m => decide (m ≠ n)) = l := by
  induction l with
  | nil => simp [insertSorted]
  | cons x xs ih =>
    have hx : ¬ x = n := fun e => h (e ▸ List.mem_cons_self x xs)
    have hxs : n ∉ xs := fun e => h (List.mem_cons_of_mem x e)
    have hdx : decide (x ≠ n) = true := decide_eq_true hx
    have hdn : decide (n ≠ n) = false := by simp
    have hfxs : xs.filter (fun m => decide (m ≠ n)) = xs := by
      rw [List.filter_eq_self]
      intro a ha
      exact decide_eq_true (fun e => hxs (e ▸ ha))
    unfold insertSorted
    split
    · rw [List.filter_cons, hdn, if_neg (by simp), List.filter_cons, hdx,
        if_pos rfl, hfxs]
    · split
      · next heq => exact absurd heq.symm hx
      · rw [List.filter_cons, hdx, if_pos rfl, ih hxs]

lemma addRemoveListen (st : MumbleState) (n : String)
    (h : n ∉ st.curChannelListens) :
    removeListenChannel n (addListenChannel n st) = st := by
  unfold addListenChannel removeListenChannel
  dsimp only
  rw [filter_ne_insertSorted n _ h]

/-! ### The crypt-resync gate -/

lemma handleUDP_uninit {now size : Nat} {decryptOk : Bool} {st : MumbleState}
    (hinit : st.crypto.initialized = false) :
    handleUDP now size decryptOk st = (st, []) := by
  unfold handleUDP
  rw [if_pos (by simp [hinit])]

lemma handleUDP_oversize {now size : Nat} {decryptOk : Bool} {st : MumbleState}
    (hsize : kMaxUdpPacket < size) :
    handleUDP now size decryptOk st = (st, []) := by
  unfold handleUDP
  by_cases hinit : st.crypto.initialized = false
  · rw [if_pos (by simp [hinit])]
  · rw [if_neg (by simpa using hinit), if_pos hsize]

lemma handleUDP_fail_fire {now : Nat} {st : MumbleState}
    (hinit : st.crypto.initialized = true)
    (hg : kPingInterval < now - st.crypto.lastGoodUdp) :
    handleUDP now 20 false st =
      ({ st with crypto := { st.crypto with lastGoodUdp := now } },
        sendMsg st [] OutMsg.cryptSetup) := by
  unfold handleUDP
  rw [if_neg (by simp [hinit]), if_neg (by decide), if_pos (by simp), if_pos hg]

lemma handleUDP_fail_skip {now : Nat} {st : MumbleState}
    (hinit : st.crypto.initialized = true)
    (hg : ¬ kPingInterval < now - st.crypto.lastGoodUdp) :
    handleUDP now 20 false st = (st, []) := by
  unfold handleUDP
  rw [if_neg (by simp [hinit]), if_neg (by decide), if_pos (by simp), if_neg hg]

lemma runDF_emits_gt (times : List Nat) :
    ∀ (st : MumbleState), ∀ e ∈ (runDecryptFailures st times).2,
      st.crypto.lastGoodUdp + kPingInterval < e := by
  induction times with
  | nil => intro st e he; simp [runDecryptFailures] at he
  | cons t rest ih =>
    intro st e he
    unfold runDecryptFailures at he
    dsimp only at he
    by_cases hinit : st.crypto.initialized = true
    · by_cases hg : kPingInterval < t - st.crypto.lastGoodUdp
      · rw [handleUDP_fail_fire hinit hg] at he
        dsimp only at he
        rcases List.mem_append.mp he with h1 | h1
        · have : e = t := by
            split at h1
            · simp at h1
            · simpa using h1
          omega
        · have h2 := ih _ e h1
          dsimp only at h2
          omega
      · rw [handleUDP_fail_skip hinit hg] at he
        dsimp only at he
        rcases List.mem_append.mp he with h1 | h1
        · simp at h1
        · exact ih st e h1
    · rw [handleUDP_uninit (by simpa using hinit)] at he
      dsimp only at he
      rcases List.mem_append.mp he with h1 | h1
      · simp at h1
      · exact ih st e h1

lemma runDF_pairwise (times : List Nat) :
    ∀ (st : MumbleState),
      List.Pairwise (fun a b => a + kPingInterval < b) (runDecryptFailures st times).2 := by
  induction times with
  | nil => intro st; simp [runDecryptFailures]
  | cons t rest ih =>
    intro st
    unfold runDecryptFailures
    dsimp only
    by_cases hinit : st.crypto.initialized = true
    · by_cases hg : kPingInterval < t - st.crypto.lastGoodUdp
      · rw [handleUDP_fail_fire hinit hg]
        dsimp only
        split
        · simpa using ih _
        · rw [List.singleton_append]
          refine List.Pairwise.cons ?_ (ih _)
          intro e he
          have h2 := runDF_emits_gt rest _ e he
          dsimp only at h2
          omega
      · rw [handleUDP_fail_skip hinit hg]
        simpa using ih st
    · rw [handleUDP_uninit (by simpa using hinit)]
      simpa using ih st

/-! ### HandlePing lemmas -/

lemma tcpStatsStep_state (now : Nat) (p : PingPacket) (st : MumbleState) :
    ∃ c h a v, tcpStatsStep now p st = { st with
      tcpPingCount := c
      tcpPings := h
      tcpPingAverage := a
      tcpPingVariance := v } := by
  unfold tcpStatsStep
  dsimp only
  split
  · exact ⟨_, _, _, _, rfl⟩
  · exact ⟨_, _, _, _, rfl⟩

section TcpStatsFields

variable (now : Nat) (p : PingPacket) (st : MumbleState)

@[simp] lemma tcpStatsStep_hasUdp : (tcpStatsStep now p st).hasUdp = st.hasUdp := by
  obtain ⟨c, h, a, v, e⟩ := tcpStatsStep_state now p st; rw [e]

@[simp] lemma tcpStatsStep_timeSinceJoin :
    (tcpStatsStep now p st).timeSinceJoin = st.timeSinceJoin := by
  obtain ⟨c, h, a, v, e⟩ := tcpStatsStep_state now p st; rw [e]

@[simp] lemma tcpStatsStep_crypto : (tcpStatsStep now p st).crypto = st.crypto := by
  obtain ⟨c, h, a, v, e⟩ := tcpStatsStep_state now p st; rw [e]

@[simp] lemma tcpStatsStep_inFlight :
    (tcpStatsStep now p st).inFlightTcpPings = st.inFlightTcpPings := by
  obtain ⟨c, h, a, v, e⟩ := tcpStatsStep_state now p st; rw [e]

end TcpStatsFields

lemma handlePing_inFlight (now : Nat) (p : PingPacket) (st : MumbleState) :
    (handlePing now p st).inFlightTcpPings = 0 := by
  unfold handlePing
  dsimp only
  rw [tcpStatsStep_inFlight]
  split
  · split
    · rfl
    · split
      · rfl
      · rfl
  · rfl

lemma handlePing_timeSinceJoin (now : Nat) (p : PingPacket) (st : MumbleState) :
    (handlePing now p st).timeSinceJoin = st.timeSinceJoin := by
  unfold handlePing
  dsimp only
  rw [tcpStatsStep_timeSinceJoin]
  split
  · split
    · rfl
    · split
      · rfl
      · rfl
  · rfl

lemma handlePing_initialized (now : Nat) (p : PingPacket) (st : MumbleState) :
    (handlePing now p st).crypto.initialized = st.crypto.initialized := by
  unfold handlePing
  dsimp only
  rw [tcpStatsStep_crypto]
  split
  · split
    · rfl
    · split
      · rfl
      · rfl
  · rfl

lemma handlePing_hasUdp {st : MumbleState} (now : Nat) (p : PingPacket)
    (hinit : st.crypto.initialized = true) :
    (handlePing now p st).hasUdp =
      if st.hasUdp = true ∧ (p.good = 0 ∨ st.crypto.localGood = 0) ∧
          20000 < now - st.timeSinceJoin then false
      else if st.hasUdp = false ∧ 3 < p.good ∧ 3 < st.crypto.localGood then true
      else st.hasUdp := by
  unfold handlePing
  dsimp only
  rw [tcpStatsStep_hasUdp, if_pos hinit]
  split
  · rfl
  · split
    · rfl
    · rfl

lemma handlePing_hasUdp_uninit {st : MumbleState} (now : Nat) (p : PingPacket)
    (hinit : ¬ st.crypto.initialized = true) :
    (handlePing now p st).hasUdp = st.hasUdp := by
  unfold handlePing
  dsimp only
  rw [tcpStatsStep_hasUdp, if_neg hinit]

lemma handlePing_hasUdp_stays_false {st : MumbleState} (now : Nat) (p : PingPacket)
    (hudp : st.hasUdp = false) (hg : p.good = 0) :
    (handlePing now p st).hasUdp = false := by
  by_cases hinit : st.crypto.initialized = true
  · rw [handlePing_hasUdp now p hinit]
    rw [if_neg (by simp [hudp]), if_neg (by simp [hg]), hudp]
  · rw [handlePing_hasUdp_uninit now p hinit, hudp]

lemma hasUdpDropCount_zero (events : List (Nat × PingPacket)) :
    ∀ (st : MumbleState), st.hasUdp = false → (∀ e ∈ events, e.2.good = 0) →
      hasUdpDropCount st events = 0 := by
  induction events with
  | nil => intro st _ _; rfl
  | cons e rest ih =>
    intro st hudp hg
    unfold hasUdpDropCount
    rw [if_neg (by rw [hudp]; simp)]
    rw [ih (handlePing e.1 e.2 st)
      (handlePing_hasUdp_stays_false e.1 e.2 hudp (hg e (List.mem_cons_self e rest)))
      (fun x hx => hg x (List.mem_cons_of_mem e hx))]

/-! ### Reconnect-on-ping-loss machinery -/

lemma idleTick_fired {now : Nat} {st : MumbleState} (htls : st.tlsActive = true)
    (hconn : st.isConnected = true) (helig : st.nextPing < now) :
    (idleTick now st).1.isConnected =
        (if 4 ≤ st.inFlightTcpPings ∧ 20000 < now - st.timeSinceJoin then false
         else true) ∧
      (idleTick now st).1.tlsActive = st.tlsActive ∧
      (idleTick now st).1.inFlightTcpPings = st.inFlightTcpPings + 1 ∧
      (idleTick now st).1.nextPing = now + kPingInterval ∧
      (idleTick now st).1.timeSinceJoin = st.timeSinceJoin := by
  unfold idleTick
  rw [if_pos ⟨htls, hconn⟩]
  dsimp only
  have h4 : (selfTrackStep (voiceTargetStep (listenStep (channelStep st).1).1).1).nextPing
      < now := by simpa using helig
  rw [pingStep_state_fired h4]
  refine ⟨?_, ?_, ?_, ?_, ?_⟩ <;> simp [hconn]

lemma reconnectCount_disconnected (times : List Nat) :
    ∀ (st : MumbleState), st.isConnected = false → reconnectCount st times = 0 := by
  induction times with
  | nil => intro st _; rfl
  | cons t rest ih =>
    intro st h
    have htick : idleTick t st = (st, [], []) := by
      refine idleTick_inactive ?_
      rintro ⟨_, hc⟩
      rw [h] at hc
      exact Bool.false_ne_true hc
    unfold reconnectCount
    rw [htick]
    dsimp only
    rw [if_neg (by rw [h]; rintro ⟨hc, _⟩; exact Bool.false_ne_true hc)]
    rw [ih st h]

lemma reconnectCount_formula (times : List Nat) :
    ∀ (st : MumbleState) (k : Nat),
      st.tlsActive = true → st.isConnected = true → st.inFlightTcpPings = k →
      eligibleTimes st.nextPing times = true →
      (∀ t ∈ times, st.timeSinceJoin + 20000 < t) →
      reconnectCount st times =
        if ¬ times = [] ∧ 5 ≤ k + times.length then 1 else 0 := by
  induction times with
  | nil =>
    intro st k _ _ _ _ _
    rw [if_neg (by simp)]
    rfl
  | cons t rest ih =>
    intro st k htls hconn hk helig hage
    have helig1 : st.nextPing < t := by
      have := (Bool.and_eq_true _ _).mp helig
      exact of_decide_eq_true this.1
    have helig2 : eligibleTimes (t + kPingInterval) rest = true := by
      have := (Bool.and_eq_true _ _).mp helig
      exact this.2
    obtain ⟨hic, htl, hif, hnp, hjoin⟩ := idleTick_fired htls hconn helig1
    have haget : st.timeSinceJoin + 20000 < t := hage t (List.mem_cons_self t rest)
    unfold reconnectCount
    by_cases h4 : 4 ≤ k
    · have hfire : (idleTick t st).1.isConnected = false := by
        rw [hic, if_pos ⟨by omega, by omega⟩]
      rw [if_pos ⟨hconn, hfire⟩]
      rw [reconnectCount_disconnected rest _ hfire]
      rw [if_pos ⟨by simp, by simp; omega⟩]
    · have hnc : (idleTick t st).1.isConnected = true := by
        rw [hic, if_neg (by rintro ⟨ha, _⟩; omega)]
      rw [if_neg (by
        rintro ⟨_, hcf⟩
        rw [hnc] at hcf
        simp at hcf)]
      have hrec := ih (idleTick t st).1 (k + 1) (by rw [htl, htls]) hnc
        (by rw [hif, hk]) (by rw [hnp]; exact helig2)
        (by intro x hx; rw [hjoin]; exact hage x (List.mem_cons_of_mem t hx))
      rw [hrec]
      by_cases hr : rest = []
      · subst hr
        rw [if_neg (by simp), if_neg (by simp; omega)]
      · have hiff : (¬ rest = [] ∧ 5 ≤ (k + 1) + rest.length) ↔
            (¬ (t :: rest) = [] ∧ 5 ≤ k + (t :: rest).length) := by
          constructor
          · rintro ⟨_, hlen⟩
            refine ⟨by simp, ?_⟩
            simp only [List.length_cons]
            omega
          · rintro ⟨_, hlen⟩
            refine ⟨hr, ?_⟩
            simp only [List.length_cons] at hlen
            omega
        rw [if_congr hiff rfl rfl]
        exact Nat.zero_add _

lemma hasUdpDropCount_one (events : List (Nat × PingPacket)) (st : MumbleState)
    (hinit : st.crypto.initialized = true) (hudp : st.hasUdp = true)
    (hne : ¬ events = [])
    (hg : ∀ e ∈ events, e.2.good = 0 ∧ st.timeSinceJoin + 20000 < e.1) :
    hasUdpDropCount st events = 1 := by
  cases events with
  | nil => exact absurd rfl hne
  | cons e rest =>
    have hge := hg e (List.mem_cons_self e rest)
    have h1 : (handlePing e.1 e.2 st).hasUdp = false := by
      rw [handlePing_hasUdp e.1 e.2 hinit]
      rw [if_pos ⟨hudp, Or.inl hge.1, by omega⟩]
    unfold hasUdpDropCount
    rw [if_pos ⟨hudp, h1⟩]
    rw [hasUdpDropCount_zero rest _ h1
      (fun x hx => (hg x (List.mem_cons_of_mem e hx)).1)]

lemma idleTick_cur (now : Nat) (st : MumbleState) :
    (idleTick now st).1.curManualChannel = st.curManualChannel := by
  unfold idleTick
  split
  · dsimp only
    simp
  · rfl

lemma idleTick_last_eq_cur {now : Nat} {st : MumbleState}
    (htls : st.tlsActive = true) (hconn : st.isConnected = true)
    (hfired : st.curManualChannel ≠ st.lastManualChannel ∧ st.channels ≠ [])
    (hself : ∀ u ∈ st.users, u.sessionId = st.session →
      ∀ c ∈ st.channels, c.1 = u.channelId → c.2 = "" ∨ c.2 = st.curManualChannel) :
    (idleTick now st).1.lastManualChannel = st.curManualChannel := by
  unfold idleTick
  rw [if_pos ⟨htls, hconn⟩]
  dsimp only
  rw [pingStep_lastManualChannel]
  have hself3 : ∀ u ∈ (voiceTargetStep (listenStep (channelStep st).1).1).1.users,
      u.sessionId = (voiceTargetStep (listenStep (channelStep st).1).1).1.session →
      ∀ c ∈ (voiceTargetStep (listenStep (channelStep st).1).1).1.channels,
        c.1 = u.channelId →
        c.2 = "" ∨
          c.2 = (voiceTargetStep (listenStep (channelStep st).1).1).1.curManualChannel := by
    simpa using hself
  rcases selfTrackStep_last_cases _ hself3 with h | h
  · rw [h]
    simp [channelStep_fired_state hfired]
  · rw [h]
    simp

/-! ### The claims -/

/-- C1: the spec says every UDP datagram, including the 4-byte crypto tag,
stays within 1024 bytes: `SendUDP` should send `s + 4` bytes only when
`s + 4 ≤ 1024`, and `HandleUDP` should discard datagrams over 1024 bytes
before decrypting. The receive side holds, but the send side checks the
plaintext size `s` against 1024, so a 1024-byte plaintext (within the
guard) goes out as a 1028-byte datagram — the code contradicts its own
comment that encoded packets are capped at 1024 bytes. -/
theorem claim1 :
    sendUDP exampleState 1024 = [1028] ∧ kMaxUdpPacket < 1028 ∧
      handleUDP 5 1025 true exampleState = (exampleState, []) ∧
      handleUDP 5 1025 false exampleState = (exampleState, []) :=
  ⟨rfl, by decide, rfl, rfl⟩

/-- C2 (amended): on an active connected tick with the desired channel
differing from `lastManualChannel` and a non-empty channel store, exactly
one channel-reconciliation message is emitted — a `UserState` join for the
first name match, else a temporary `ChannelState` create; a second tick
with no further change emits none, PROVIDED the store does not place our
session in a channel whose non-empty name differs from the desired one
(otherwise self-channel tracking resets `lastManualChannel` and the move
is re-emitted); `setChannel` with the identical name, or while not
connected, changes nothing. -/
theorem claim2 :
    (∀ (st : MumbleState) (now : Nat),
      st.tlsActive = true → st.isConnected = true →
      st.curManualChannel ≠ st.lastManualChannel → st.channels ≠ [] →
      (((idleTick now st).2.1).filter isChannelReconcileMsg =
        [match st.channels.find? (fun c => decide (c.2 = st.curManualChannel)) with
         | some c => OutMsg.userStateMove st.session c.1
         | none => OutMsg.channelStateCreate 0 st.curManualChannel true]) ∧
      ((∀ u ∈ st.users, u.sessionId = st.session →
          ∀ c ∈ st.channels, c.1 = u.channelId →
            c.2 = "" ∨ c.2 = st.curManualChannel) →
        ∀ now2 : Nat,
          ((idleTick now2 (idleTick now st).1).2.1).filter isChannelReconcileMsg = [])) ∧
    (∀ (st : MumbleState) (n : String),
      (st.isConnected = false → setChannel n st = st) ∧
        setChannel st.curManualChannel st = st) := by
  constructor
  · intro st now htls hconn hdiff hch
    constructor
    · rw [idleTick_filter_channel ⟨htls, hconn⟩,
        channelStep_fired_out ⟨hdiff, hch⟩ hconn htls]
      cases hfind : st.channels.find? (fun c => decide (c.2 = st.curManualChannel)) <;>
        simp [isChannelReconcileMsg]
    · intro hself now2
      have hcur : (idleTick now st).1.curManualChannel = st.curManualChannel :=
        idleTick_cur now st
      have hlast : (idleTick now st).1.lastManualChannel = st.curManualChannel :=
        idleTick_last_eq_cur htls hconn ⟨hdiff, hch⟩ hself
      by_cases hg2 : (idleTick now st).1.tlsActive = true ∧
          (idleTick now st).1.isConnected = true
      · rw [idleTick_filter_channel hg2, channelStep_skip (by
          rintro ⟨hne, _⟩
          exact hne (by rw [hcur, hlast]))]
        rfl
      · rw [idleTick_inactive hg2]
        rfl
  · intro st n
    constructor
    · intro h
      unfold setChannel
      rw [if_pos (by rw [h]; rfl)]
    · unfold setChannel
      split
      · rfl
      · rw [if_pos rfl]

/-- C2 counterexample: the claim as frozen also asserts that a second tick
with no change to desired or actual state emits nothing. In
`exampleState` the store keeps our session in `Root` while the desired
channel is `Lobby`; the first tick emits the join, but its self-channel
tracking resets `lastManualChannel` to `Root`, so the unchanged second
tick emits the very same join again. -/
theorem claim2_counterexample :
    ((idleTick 0 exampleState).2.1).filter isChannelReconcileMsg =
        [OutMsg.userStateMove 7 1] ∧
      ((idleTick 0 (idleTick 0 exampleState).1).2.1).filter isChannelReconcileMsg =
        [OutMsg.userStateMove 7 1] :=
  ⟨rfl, rfl⟩

theorem claim2_witness :
    (("Lobby" : String) ≠ "Root") ∧
      ((idleTick 0 settledState).2.1).filter isChannelReconcileMsg =
        [OutMsg.userStateMove 7 1] ∧
      ((idleTick 0 (idleTick 0 settledState).1).2.1).filter isChannelReconcileMsg =
        [] := by
  refine ⟨by decide, ?_, ?_⟩
  · rw [(claim2.1 settledState 0 rfl rfl (by decide) (by decide)).1]
    rfl
  · exact (claim2.1 settledState 0 rfl rfl (by decide) (by decide)).2 (by decide) 0

/-- C3: the spec says a single UDP ping looped back with a 50 ms delta
leaves the UDP ping statistics at count 1, average ≈ 50.0, variance 0.
The code stores the 50 ms sample but its averaging loop only sums indices
strictly below `thisPing`, excluding the sample it just stored, while
dividing by `thisPing + 1` — so the reported average is 0, not 50 (count
and variance do match). The mismatched sum/divisor shows the code is a
slip against the intended rolling average. -/
theorem claim3 :
    (handleVoicePing 1050 1000 exampleState).udpPingCount = 1 ∧
      (handleVoicePing 1050 1000 exampleState).udpPings.getD 0 0 = 50 ∧
      (handleVoicePing 1050 1000 exampleState).udpPingAverage = 0 ∧
      (handleVoicePing 1050 1000 exampleState).udpPingVariance = 0 :=
  ⟨rfl, rfl,
    by simp [handleVoicePing, recordSample, exampleState, pingBufferSize],
    by simp [handleVoicePing, recordSample, exampleState, pingBufferSize]⟩

/-- C4: for every sequence of failed UDP decrypts, `CryptSetup` requests
go out at most once per 1000 ms (consecutive emission times are more than
`kPingInterval` apart, for any failure schedule); and for failures at
`t0`, `t0+500`, `t0+1100` with the gate open at `t0`, exactly the first
and third emit. -/
theorem claim4 :
    (∀ (st : MumbleState) (times : List Nat),
      List.Pairwise (fun a b => a + kPingInterval < b)
        (runDecryptFailures st times).2) ∧
    (∀ (st : MumbleState) (t0 : Nat), st.crypto.initialized = true →
      st.isConnected = true → st.tlsActive = true →
      st.crypto.lastGoodUdp + kPingInterval < t0 →
      (runDecryptFailures st [t0, t0 + 500, t0 + 1100]).2 = [t0, t0 + 1100]) := by
  constructor
  · intro st times
    exact runDF_pairwise times st
  · intro st t0 hinit hc ht hgate
    have hf1 := @handleUDP_fail_fire t0 st hinit (by omega)
    have hs2 := @handleUDP_fail_skip (t0 + 500)
      { st with crypto := { st.crypto with lastGoodUdp := t0 } } hinit
      (by
        show ¬ kPingInterval < (t0 + 500) - t0
        simp only [kPingInterval]
        omega)
    have hf3 := @handleUDP_fail_fire (t0 + 1100)
      { st with crypto := { st.crypto with lastGoodUdp := t0 } } hinit
      (by
        show kPingInterval < (t0 + 1100) - t0
        simp only [kPingInterval]
        omega)
    simp only [runDecryptFailures]
    rw [hf1]
    dsimp only
    rw [hs2]
    dsimp only
    rw [hf3]
    simp [sendMsg, hc, ht]

theorem claim4_witness :
    exampleState.crypto.lastGoodUdp + kPingInterval < 2000 ∧
      (runDecryptFailures exampleState [2000, 2000 + 500, 2000 + 1100]).2 =
        [2000, 2000 + 1100] :=
  ⟨by decide, claim4.2 exampleState 2000 rfl rfl rfl (by decide)⟩

/-- C5: on a ping-eligible active tick, the connection is reset
(`isConnected := false`) exactly when `inFlightTcpPings ≥ 4` and the
session is more than 20 s old; every server `Ping` resets
`inFlightTcpPings` to 0; and a run of at least five eligible ticks with no
intervening server ping, all past the 20 s mark, triggers exactly one such
reconnect. -/
theorem claim5 :
    (∀ (now : Nat) (st : MumbleState), st.tlsActive = true →
      st.isConnected = true → st.nextPing < now →
      ((idleTick now st).1.isConnected = false ↔
        4 ≤ st.inFlightTcpPings ∧ 20000 < now - st.timeSinceJoin)) ∧
    (∀ (now : Nat) (p : PingPacket) (st : MumbleState),
      (handlePing now p st).inFlightTcpPings = 0) ∧
    (∀ (st : MumbleState) (times : List Nat), st.tlsActive = true →
      st.isConnected = true → st.inFlightTcpPings = 0 →
      eligibleTimes st.nextPing times = true →
      (∀ t ∈ times, st.timeSinceJoin + 20000 < t) → 5 ≤ times.length →
      reconnectCount st times = 1) := by
  refine ⟨?_, handlePing_inFlight, ?_⟩
  · intro now st htls hconn helig
    obtain ⟨hic, _⟩ := idleTick_fired htls hconn helig
    rw [hic]
    by_cases hcond : 4 ≤ st.inFlightTcpPings ∧ 20000 < now - st.timeSinceJoin
    · simp [hcond]
    · simp [hcond]
  · intro st times htls hconn hif helig hage hlen
    rw [reconnectCount_formula times st 0 htls hconn hif helig hage]
    rw [if_pos ⟨by
      intro h
      rw [h] at hlen
      simp at hlen, by omega⟩]

theorem claim5_witness :
    eligibleTimes exampleState.nextPing [30000, 31001, 32002, 33003, 34004] = true ∧
      reconnectCount exampleState [30000, 31001, 32002, 33003, 34004] = 1 :=
  ⟨by decide,
    claim5.2.2 exampleState [30000, 31001, 32002, 33003, 34004] rfl rfl rfl
      (by decide) (by decide) (by decide)⟩

/-- C6: while crypto is initialized, a server ping flips `hasUdp` from
`true` to `false` exactly when either side's good counter is zero and the
session is over 20 s old; with `hasUdp` off, a ping with both good
counters above 3 flips it back on; and a non-empty run of `good = 0` pings
past the 20 s mark flips `hasUdp` off exactly once. -/
theorem claim6 :
    (∀ (now : Nat) (p : PingPacket) (st : MumbleState),
      st.crypto.initialized = true →
      (((handlePing now p st).hasUdp = false ∧ st.hasUdp = true) ↔
        (st.hasUdp = true ∧ (p.good = 0 ∨ st.crypto.localGood = 0) ∧
          20000 < now - st.timeSinceJoin))) ∧
    (∀ (now : Nat) (p : PingPacket) (st : MumbleState),
      st.crypto.initialized = true → st.hasUdp = false → 3 < p.good →
      3 < st.crypto.localGood → (handlePing now p st).hasUdp = true) ∧
    (∀ (st : MumbleState) (events : List (Nat × PingPacket)),
      st.crypto.initialized = true → st.hasUdp = true → ¬ events = [] →
      (∀ e ∈ events, e.2.good = 0 ∧ st.timeSinceJoin + 20000 < e.1) →
      hasUdpDropCount st events = 1) := by
  refine ⟨?_, ?_, ?_⟩
  · intro now p st hinit
    constructor
    · rintro ⟨h1, h2⟩
      by_cases hA : st.hasUdp = true ∧ (p.good = 0 ∨ st.crypto.localGood = 0) ∧
          20000 < now - st.timeSinceJoin
      · exact hA
      · exfalso
        rw [handlePing_hasUdp now p hinit, if_neg hA] at h1
        by_cases hB : st.hasUdp = false ∧ 3 < p.good ∧ 3 < st.crypto.localGood
        · rw [if_pos hB] at h1
          simp at h1
        · rw [if_neg hB] at h1
          rw [h2] at h1
          simp at h1
    · intro hA
      refine ⟨?_, hA.1⟩
      rw [handlePing_hasUdp now p hinit, if_pos hA]
  · intro now p st hinit hudpf hg1 hg2
    rw [handlePing_hasUdp now p hinit]
    rw [if_neg (by rintro ⟨h1, _⟩; rw [hudpf] at h1; simp at h1),
      if_pos ⟨hudpf, hg1, hg2⟩]
  · intro st events hinit hudp hne hg
    exact hasUdpDropCount_one events st hinit hudp hne hg

theorem claim6_witness :
    exampleState.hasUdp = true ∧
      hasUdpDropCount exampleState [(25000, zeroGoodPing), (26000, zeroGoodPing)] = 1 :=
  ⟨rfl,
    claim6.2.2 exampleState [(25000, zeroGoodPing), (26000, zeroGoodPing)] rfl rfl
      (by decide) (by decide)⟩

/-- C7: on a connected active tick, the listen deltas are the two set
differences (`toRemove = last \ current`, `toAdd = current \ last`); one
`UserState` carrying exactly the resolved add and remove ids goes out when
any name resolved, none otherwise; the committed `lastChannelListens`
keeps exactly the names that were kept or newly resolved (so unresolved
adds retry later and unresolved removes are dropped); and an
`addListenChannel` followed by `removeListenChannel` of a fresh name
before any tick restores the state exactly, so the pair never reaches the
wire. -/
theorem claim7 :
    (∀ st : MumbleState, st.isConnected = true → st.tlsActive = true →
      ((listenStep st).2 =
        if ¬ listenAddIds st = [] ∨ ¬ listenRemoveIds st = [] then
          [OutMsg.userStateListen st.session (listenAddIds st) (listenRemoveIds st)]
        else []) ∧
      (∀ m, m ∈ (listenStep st).1.lastChannelListens ↔
        (m ∈ st.lastChannelListens ∧
          m ∉ st.lastChannelListens.filter (fun n => decide (n ∉ st.curChannelListens))) ∨
        (m ∈ st.curChannelListens.filter (fun n => decide (n ∉ st.lastChannelListens)) ∧
          (findCh st m).isSome))) ∧
    (∀ (st : MumbleState) (n : String), n ∉ st.curChannelListens →
      removeListenChannel n (addListenChannel n st) = st) := by
  constructor
  · intro st hc ht
    obtain ⟨h1, h2⟩ := listenStep_spec st
    refine ⟨?_, h2⟩
    rw [h1, if_pos (⟨hc, ht⟩ : st.isConnected = true ∧ st.tlsActive = true)]
  · intro st n h
    exact addRemoveListen st n h

theorem claim7_witness :
    (listenStep listenState).2 = [OutMsg.userStateListen 7 [2] []] ∧
      (("B" : String) ∉ listenState.curChannelListens) ∧
      removeListenChannel "B" (addListenChannel "B" listenState) = listenState := by
  refine ⟨?_, by decide, claim7.2 listenState "B" (by decide)⟩
  rw [(claim7.1 listenState rfl rfl).1]
  rfl

/-- C8 (amended): on a connected tick, the voice-target flush emits, per
pending entry `(idx, config)` in map order, exactly one `VoiceTarget` with
`id = idx` whose first sub-target aggregates the session ids of all users
whose names are in `config.users`, followed by one sub-target per STORE
CHANNEL whose name is in `config.channels` (one per matching channel, so a
duplicated channel name contributes one sub-target per duplicate);
unresolved names contribute nothing, and the pending map is cleared, so
each entry is emitted exactly once. -/
theorem claim8 :
    ∀ st : MumbleState, st.isConnected = true → st.tlsActive = true →
      ((voiceTargetStep st).2 =
        st.pendingVoiceTargetUpdates.map (fun p =>
          OutMsg.voiceTarget p.1
            ({ sessions := resolveUserSessions st p.2.users, channelId := none } ::
              (resolveChannelIds st p.2.channels).map
                (fun cid => { sessions := [], channelId := some cid })))) ∧
      (voiceTargetStep st).1.pendingVoiceTargetUpdates = [] :=
  fun st hc ht => ⟨vtStep_out st hc ht, rfl⟩

/-- C8 counterexample: the claim as frozen promises one extra sub-target
per RESOLVED CHANNEL NAME. With two store channels both named `X` and one
pending entry referencing the single name `X`, the code emits three
sub-targets (the user sub-target plus one per matching channel), not
`1 + 1`. -/
theorem claim8_counterexample :
    (voiceTargetStep c8state).2 =
      [OutMsg.voiceTarget 3
        [{ sessions := [], channelId := none },
         { sessions := [], channelId := some 1 },
         { sessions := [], channelId := some 2 }]] ∧
      (c8config.channels.filter (fun n => (findCh c8state n).isSome)).length = 1 ∧
      ([(⟨[], none⟩ : VoiceSubTarget), ⟨[], some 1⟩, ⟨[], some 2⟩].length ≠ 1 + 1) :=
  ⟨rfl, rfl, by decide⟩

theorem claim8_witness :
    (voiceTargetStep c8state).2 =
      c8state.pendingVoiceTargetUpdates.map (fun p =>
        OutMsg.voiceTarget p.1
          ({ sessions := resolveUserSessions c8state p.2.users, channelId := none } ::
            (resolveChannelIds c8state p.2.channels).map
              (fun cid => { sessions := [], channelId := some cid }))) ∧
      (voiceTargetStep c8state).1.pendingVoiceTargetUpdates = [] :=
  claim8 c8state rfl rfl

/-- C9: `isConnected` together with an active TLS session is a
precondition for every outbound control send: when either is missing,
`Send` writes nothing and returns without error, the whole reconciler tick
emits nothing and leaves the state unchanged, and tunneled voice is
dropped. -/
theorem claim9 :
    ∀ st : MumbleState, st.isConnected = false ∨ st.tlsActive = false →
      (∀ (out : List OutMsg) (m : OutMsg), sendMsg st out m = out) ∧
      (∀ now : Nat, (idleTick now st).2.1 = [] ∧ (idleTick now st).1 = st) ∧
      (∀ s : Nat, st.hasUdp = false → (sendVoice st s).1 = []) := by
  intro st h
  have hng : ¬ (st.isConnected = true ∧ st.tlsActive = true) := by
    rintro ⟨h1, h2⟩
    rcases h with h | h
    · rw [h] at h1
      simp at h1
    · rw [h] at h2
      simp at h2
  have hsend : ∀ out m, sendMsg st out m = out := by
    intro out m
    unfold sendMsg
    rw [if_neg hng]
  refine ⟨hsend, ?_, ?_⟩
  · intro now
    have htick : idleTick now st = (st, [], []) :=
      idleTick_inactive (by rintro ⟨h2, h1⟩; exact hng ⟨h1, h2⟩)
    rw [htick]
    exact ⟨rfl, rfl⟩
  · intro s hudp
    unfold sendVoice
    rw [if_pos (by rw [hudp]; rfl)]
    exact hsend [] _

theorem claim9_witness :
    sendMsg disconnState [] OutMsg.cryptSetup = [] ∧
      (idleTick 0 disconnState).2.1 = [] ∧ (idleTick 0 disconnState).1 = disconnState :=
  ⟨(claim9 disconnState (Or.inl rfl)).1 [] OutMsg.cryptSetup,
    ((claim9 disconnState (Or.inl rfl)).2.1 0).1,
    ((claim9 disconnState (Or.inl rfl)).2.1 0).2⟩

/-- C10: while the crypto state is uninitialized, every `SendUDP` is
dropped (no datagram), every incoming UDP datagram is dropped by
`HandleUDP` with no state change and no message, whatever its size,
content or decrypt outcome, and voice sent while `hasUdp` holds produces
neither a tunnel message nor a datagram. -/
theorem claim10 :
    ∀ st : MumbleState, st.crypto.initialized = false →
      (∀ s : Nat, sendUDP st s = []) ∧
      (∀ (now dsize : Nat) (ok : Bool), handleUDP now dsize ok st = (st, [])) ∧
      (∀ s : Nat, st.hasUdp = true → sendVoice st s = ([], [])) := by
  intro st hinit
  have h1 : ∀ s : Nat, sendUDP st s = [] := by
    intro s
    unfold sendUDP
    rw [if_pos (by rw [hinit]; rfl)]
  refine ⟨h1, fun now dsize ok => handleUDP_uninit hinit, ?_⟩
  intro s hudp
  unfold sendVoice
  rw [if_neg (by rw [hudp]; simp)]
  rw [h1 s]

theorem claim10_witness :
    uninitState.crypto.initialized = false ∧
      sendUDP uninitState 100 = [] ∧
      handleUDP 7 2000 true uninitState = (uninitState, []) :=
  ⟨rfl, (claim10 uninitState rfl).1 100, (claim10 uninitState rfl).2.1 7 2000 true⟩

end Mumble
